import Mathlib

/-
Verification of the simplex LP solver (src/src/lib.rs) against its
natural-language specification.  The Rust code is shallowly embedded:
`f64` values become rationals, `Vec<f64>` becomes `List ℚ`, and a
`HashSet<usize>` becomes a `List ℕ` recording both the set's contents and
one possible iteration order (Rust's `HashSet` iteration order is
unspecified, so every function below that folds over such a list depends
on the order the list records, exactly as the compiled code depends on
the hash iteration order).  Rust panics are modelled by an explicit
`Run.crash` outcome, and the unbounded `while` loops take explicit fuel,
with `Run.spin` marking fuel exhaustion.
-/

namespace LPS

attribute [local semireducible] Rat.add Rat.sub Rat.mul Rat.inv

/-- Tolerance constant `EPS = 1e-8` (lib.rs line 3), as an exact rational. -/
def eps : ℚ := 1 / 100000000

/-- Read a vector entry `v[i]`; out-of-range reads default to 0 (theorems that
depend on an entry carry the in-range hypothesis). -/
def getI (l : List ℚ) (i : ℕ) : ℚ := l.getD i 0

/-- Read a matrix entry `m[i][j]`. -/
def getI2 (m : List (List ℚ)) (i j : ℕ) : ℚ := getI (m.getD i []) j

/-- The validated input LP "maximize cᵀx s.t. Ax ≤ b, x ≥ 0" (lib.rs 10-15). -/
structure StandardForm where
  c : List ℚ
  a : List (List ℚ)
  b : List ℚ
deriving DecidableEq

/-- Models `StandardForm::new` (lib.rs 18-32): dimension validation; `none` models the
`panic!()` on a row-count or row-length mismatch. -/
def StandardForm.newSF (c : List ℚ) (a : List (List ℚ)) (b : List ℚ) :
    Option StandardForm :=
  if a.length = b.length ∧ ∀ ai ∈ a, ai.length = c.length then some ⟨c, a, b⟩
  else none

/-- The slack-form tableau (lib.rs 128-136).  `nonbasic`/`basic` model the two
`HashSet<usize>` fields together with one iteration order. -/
structure SlackForm where
  nonbasic : List ℕ
  basic : List ℕ
  a : List (List ℚ)
  b : List ℚ
  c : List ℚ
  v : ℚ
deriving DecidableEq

/-- The index reads `self.a[i - num_basic][j]` / `self.b[i - num_basic]` performed
by `into_slack_from` (lib.rs 49-59) panic when they fall outside the source
vectors; this detects that, including `usize` underflow when `i < num_basic`
(which wraps and is then out of bounds).  The `a`-loop body only runs when the
nonbasic set is nonempty. -/
def slackFromErr (s : StandardForm) : Bool :=
  let n := s.c.length
  let m := s.b.length
  ((List.range m).map (n + ·)).any fun i =>
    (decide (0 < n) &&
      (decide (i < m) || decide (s.a.length ≤ i - m) ||
        decide ((s.a.getD (i - m) []).length < n)))
    || (decide (i < m) || decide (s.b.length ≤ i - m))

/-- Models `StandardForm::into_slack_from` (lib.rs 34-74): the plain slack form with all
slack variables basic.  NOTE the source computes the constraint row as
`i - num_basic` (not `i - num_nonbasic` as its auxiliary sibling does), which is
reproduced here verbatim; `none` models the resulting index panic. -/
def StandardForm.into_slack_from (s : StandardForm) : Option SlackForm :=
  let n := s.c.length
  let m := s.b.length
  let nv := n + m
  if slackFromErr s then none
  else some
    { nonbasic := List.range n
      basic := (List.range m).map (n + ·)
      a := (List.range nv).map fun i => (List.range nv).map fun j =>
        if n ≤ i ∧ j < n then getI2 s.a (i - m) j else 0
      b := (List.range nv).map fun i => if n ≤ i then getI s.b (i - m) else 0
      c := (List.range nv).map fun j => if j < n then getI s.c j else 0
      v := 0 }

/-- Models `StandardForm::into_auxiliary_slack_form` (lib.rs 78-121): the auxiliary LP
"maximize −x_aux" with the extra column at index `n+m`; this version uses the
correct row offset `i - num_nonbasic`. -/
def StandardForm.into_auxiliary_slack_form (s : StandardForm) : SlackForm :=
  let n := s.c.length
  let m := s.b.length
  let nv := n + m
  { nonbasic := List.range n ++ [nv]
    basic := (List.range m).map (n + ·)
    a := (List.range (nv + 1)).map fun i => (List.range (nv + 1)).map fun j =>
      if n ≤ i ∧ i < nv then
        (if j < n then getI2 s.a (i - n) j else if j = nv then -1 else 0)
      else 0
    b := (List.range (nv + 1)).map fun i =>
      if n ≤ i ∧ i < nv then getI s.b (i - n) else 0
    c := (List.range (nv + 1)).map fun j => if j = nv then -1 else 0
    v := 0 }

/-- Number of variables as `pivot` computes it (lib.rs 141-143). -/
def nvOf (s : SlackForm) : ℕ := s.nonbasic.length + s.basic.length

/-- The rewritten pivot row `a[entering][·]` (lib.rs 158-161): written first at
column `leaving`, then overwritten along the old nonbasic columns, so a column
in both gets the nonbasic formula. -/
def prowF (s : SlackForm) (leaving entering : ℕ) (j : ℕ) : ℚ :=
  if j ∈ s.nonbasic then getI2 s.a leaving j / getI2 s.a leaving entering
  else if j = leaving then 1 / getI2 s.a leaving entering
  else 0

/-- Entry `(i, j)` of the pivoted matrix (lib.rs 157-167).  For an old basic row
the column `leaving` entry is written after the nonbasic loop (last write wins),
and rows outside `basic ∪ {entering}` stay at the `vec!` fill value 0. -/
def pivotEntry (s : SlackForm) (leaving entering : ℕ) (i j : ℕ) : ℚ :=
  if i ∈ s.basic then
    if j = leaving then -(getI2 s.a i entering) * prowF s leaving entering leaving
    else if j ∈ s.nonbasic then
      getI2 s.a i j - getI2 s.a i entering * prowF s leaving entering j
    else 0
  else if i = entering then prowF s leaving entering j
  else 0

/-- Entry `i` of the pivoted right-hand side (lib.rs 151-155): `b[entering]` is
written first, then every old basic row (including `leaving`) is rewritten. -/
def pivotBval (s : SlackForm) (leaving entering : ℕ) (i : ℕ) : ℚ :=
  if i ∈ s.basic then
    getI s.b i - getI2 s.a i entering * (getI s.b leaving / getI2 s.a leaving entering)
  else if i = entering then getI s.b leaving / getI2 s.a leaving entering
  else 0

/-- Entry `j` of the pivoted reduced-cost row (lib.rs 169-173): `c[leaving]` is
written first, then the old nonbasic columns. -/
def pivotCval (s : SlackForm) (leaving entering : ℕ) (j : ℕ) : ℚ :=
  if j ∈ s.nonbasic then
    getI s.c j - getI s.c entering * prowF s leaving entering j
  else if j = leaving then
    -(getI s.c entering) * prowF s leaving entering leaving
  else 0

/-- Models `SlackForm::pivot` (lib.rs 140-188): a pure function returning a brand-new
tableau; the receiver is not mutated.  `v` reads the freshly built `b[entering]`
(lib.rs 175). -/
def SlackForm.pivot (s : SlackForm) (leaving entering : ℕ) : SlackForm :=
  { nonbasic := s.nonbasic.filter (fun j => j ≠ entering) ++ [leaving]
    basic := s.basic.filter (fun i => i ≠ leaving) ++ [entering]
    a := (List.range (nvOf s)).map fun i =>
      (List.range (nvOf s)).map (pivotEntry s leaving entering i)
    b := (List.range (nvOf s)).map (pivotBval s leaving entering)
    c := (List.range (nvOf s)).map (pivotCval s leaving entering)
    v := s.v + getI s.c entering *
      getI ((List.range (nvOf s)).map (pivotBval s leaving entering)) entering }

/-- Models `SlackForm::get_basic_solution` (lib.rs 190-196): a vector of length
`a.len()` holding each basic variable's `b` value and 0 elsewhere. -/
def SlackForm.get_basic_solution (s : SlackForm) : List ℚ :=
  (List.range s.a.length).map fun i => if i ∈ s.basic then getI s.b i else 0

/-- Models `SlackForm::get_objective` (lib.rs 198-205): `v` plus the nonbasic reduced
costs applied to the given point. -/
def SlackForm.get_objective (s : SlackForm) (sol : List ℚ) : ℚ :=
  s.v + (s.nonbasic.map fun j => getI s.c j * getI sol j).sum

/-- The result enum (lib.rs 208-213). -/
inductive LPResult where
  | Feasible : List ℚ → ℚ → LPResult
  | Infeasible : LPResult
  | Unbounded : LPResult
deriving DecidableEq

/-- Outcome of running embedded Rust code: a value, a panic, or fuel
exhaustion of one of the unbounded loops. -/
inductive Run (α : Type) where
  | out : α → Run α
  | crash : Run α
  | spin : Run α
deriving DecidableEq

/-- Models `Iterator::position`: index of the first element satisfying `p`. -/
def position (p : ℚ → Bool) : List ℚ → Option ℕ
  | [] => none
  | x :: xs => if p x then some 0 else (position p xs).map (· + 1)

/-- The entering-variable scan `slack.c.iter().position(|&ci| ci > EPS)`
(lib.rs 238 and 317). -/
def findEntering (c : List ℚ) : Option ℕ := position (fun x => decide (eps < x)) c

/-- The ratio `b[i] / a[i][entering]` of a candidate leaving row. -/
def ratio (s : SlackForm) (e i : ℕ) : ℚ := getI s.b i / getI2 s.a i e

/-- The basic rows passing the filter `a[i][entering] > EPS` (lib.rs 241/323),
in the basic set's iteration order. -/
def qualRows (s : SlackForm) (e : ℕ) : List ℕ :=
  s.basic.filter fun i => decide (eps < getI2 s.a i e)

/-- One step of the minimum-ratio fold: starting from `leaving = 0` and
`delta = f64::INFINITY` (modelled as `none`), a row replaces the incumbent only
when its ratio improves on `delta` by more than `EPS` (`dii + eps < delta` at
lib.rs 325, equivalently `delta - dii > EPS` at lib.rs 243). -/
def lvStep (r : ℕ → ℚ) (acc : ℕ × Option ℚ) (i : ℕ) : ℕ × Option ℚ :=
  match acc.2 with
  | none => (i, some (r i))
  | some d => if r i + eps < d then (i, some (r i)) else acc

/-- The leaving-variable selection loop (lib.rs 239-247 and 321-329), run over
the basic set in its recorded iteration order. -/
def chooseLeaving (s : SlackForm) (e : ℕ) : ℕ :=
  ((qualRows s e).foldl (lvStep (ratio s e)) (0, none)).1

/-- Result of the Phase-II loop proper: unboundedness detected, or the final
(optimal) tableau. -/
inductive P2Out where
  | unbounded : P2Out
  | done : SlackForm → P2Out
deriving DecidableEq

/-- The Phase-II pivoting loop (lib.rs 317-331) with explicit fuel: while some
reduced cost exceeds `EPS`, test unboundedness, then pivot on the chosen
(leaving, entering) pair. -/
def phase2 : ℕ → SlackForm → Run P2Out
  | fuel, s =>
    match findEntering s.c with
    | none => Run.out (P2Out.done s)
    | some e =>
      if s.basic.all (fun i => decide (getI2 s.a i e ≤ eps)) then
        Run.out P2Out.unbounded
      else
        match fuel with
        | 0 => Run.spin
        | f + 1 => phase2 f (s.pivot (chooseLeaving s e) e)

/-- The Phase-I auxiliary optimization loop (lib.rs 238-249): same selection
rules, but no unboundedness test. -/
def auxLoop : ℕ → SlackForm → Run SlackForm
  | fuel, s =>
    match findEntering s.c with
    | none => Run.out s
    | some e =>
      match fuel with
      | 0 => Run.spin
      | f + 1 => auxLoop f (s.pivot (chooseLeaving s e) e)

/-- The most-negative-`b` scan (lib.rs 216-223): `k = 0`, `bmin = b[0]`, switch
only on an improvement of more than `EPS`.  The caller checks `b` is nonempty. -/
def bminScan (b : List ℚ) : ℕ × ℚ :=
  b.enum.foldl (fun acc p => if eps < acc.2 - p.2 then p else acc) (0, b.headD 0)

/-- The auxiliary tableau after the forced first pivot
`slack_aux.pivot(num_nonbasic + k, vaux)` (lib.rs 232-236). -/
def auxStart (std : StandardForm) : SlackForm :=
  (std.into_auxiliary_slack_form).pivot (std.c.length + (bminScan std.b).1)
    (std.c.length + std.b.length)

/-- Reconstruction of the original-objective tableau over the surviving basis
(lib.rs 258-300): drop the auxiliary column, truncate `a` and `b` to the
original variable universe, and recompute `v` and the reduced costs from the
original cost vector restricted to basic/nonbasic structural indices. -/
def phase1Rebuild (std : StandardForm) (sb : SlackForm) : SlackForm :=
  let n := std.c.length
  let nv := n + std.b.length
  let nb := sb.nonbasic.filter fun j => j ≠ nv
  { nonbasic := nb
    basic := sb.basic
    a := (List.range nv).map fun i => (List.range nv).map fun j => getI2 sb.a i j
    b := (List.range nv).map fun i => getI sb.b i
    c := (List.range nv).map fun j =>
      if j ∈ nb then
        (if j < n then getI std.c j else 0)
          - ((sb.basic.filter fun i => i < n).map fun i =>
              getI std.c i * getI2 sb.a i j).sum
      else 0
    v := ((sb.basic.filter fun i => i < n).map fun i =>
      getI std.c i * getI sb.b i).sum }

/-- The feasibility decision after the auxiliary loop (lib.rs 251-304): if the
auxiliary variable's basic-solution value is within `EPS` of 0, pivot it out
when still basic (the `.unwrap()` panics — `Run.crash` — when no nonbasic
column of its row exceeds `EPS` in absolute value) and rebuild the original
tableau; otherwise report infeasibility (`none`). -/
def phase1Post (std : StandardForm) (sAux : SlackForm) : Run (Option SlackForm) :=
  if |getI sAux.get_basic_solution (std.c.length + std.b.length)| ≤ eps then
    match
      (if std.c.length + std.b.length ∈ sAux.basic then
        (sAux.nonbasic.find? fun i =>
          decide (eps < |getI2 sAux.a (std.c.length + std.b.length) i|)).map
          (sAux.pivot (std.c.length + std.b.length) ·)
      else some sAux) with
    | none => Run.crash
    | some sb => Run.out (some (phase1Rebuild std sb))
  else Run.out none

/-- Phase-I, `initialize_simplex` in the source (lib.rs 215-305): reading
`b[0]` of an empty `b` panics; an all-(≥ −EPS) right-hand side takes the plain
slack form (whose index panic is propagated); otherwise the auxiliary problem
is pivoted and optimized, and `phase1Post` decides feasibility. -/
def initSimplex (fuel : ℕ) (std : StandardForm) : Run (Option SlackForm) :=
  if std.b = [] then Run.crash
  else if -eps ≤ (bminScan std.b).2 then
    match std.into_slack_from with
    | none => Run.crash
    | some sf => Run.out (some sf)
  else
    match auxLoop fuel (auxStart std) with
    | Run.out sAux => phase1Post std sAux
    | Run.crash => Run.crash
    | Run.spin => Run.spin

/-- Extraction of the reported result from a terminal tableau (lib.rs 333-343):
basic solution, objective, and the restriction to the first
`nonbasic.len()` (structural) coordinates. -/
def reportResult (sl : SlackForm) : LPResult :=
  let sol := sl.get_basic_solution
  LPResult.Feasible ((List.range sl.nonbasic.length).map fun j => getI sol j)
    (sl.get_objective sol)

/-- Phase-II plus result extraction, i.e. `simplex` after `initialize_simplex`
has produced a feasible tableau (lib.rs 316-343). -/
def simplexFromSlack (fuel : ℕ) (sf : SlackForm) : Run LPResult :=
  match phase2 fuel sf with
  | Run.out P2Out.unbounded => Run.out LPResult.Unbounded
  | Run.out (P2Out.done sl) => Run.out (reportResult sl)
  | Run.crash => Run.crash
  | Run.spin => Run.spin

/-- Models `simplex` (lib.rs 307-344). -/
def simplex (fuel : ℕ) (std : StandardForm) : Run LPResult :=
  match initSimplex fuel std with
  | Run.out none => Run.out LPResult.Infeasible
  | Run.out (some sf) => simplexFromSlack fuel sf
  | Run.crash => Run.crash
  | Run.spin => Run.spin

/-
Concrete instances used by individual claims.
-/

/-- An LP with two objective coefficients, one constraint and `b = [1] ≥ 0`:
the plain-slack-form path of Phase-I is taken, and `into_slack_from` reads
`A[i - 1]` for basic row `i = 2`, i.e. the nonexistent row `A[1]`. -/
def c1lp : StandardForm := ⟨[1, 1], [[1, 1]], [1]⟩

/-- maximize x₀ s.t. x₀ ≤ 1e-8, x₀ ≤ 0: the two candidate leaving rows tie
within `EPS` (ratios 1e-8 and 0). -/
def c2lp : StandardForm := ⟨[1, 0], [[1, 0], [1, 0]], [eps, 0]⟩

/-- The plain slack form of `c2lp`, with the basic set iterated as (2, 3). -/
def c2asc : SlackForm :=
  ⟨[0, 1], [2, 3],
    [[0, 0, 0, 0], [0, 0, 0, 0], [1, 0, 0, 0], [1, 0, 0, 0]],
    [0, 0, eps, 0], [1, 0, 0, 0], 0⟩

/-- The same hash-set contents with the other possible iteration order (3, 2). -/
def c2desc : SlackForm := { c2asc with basic := [3, 2] }

/-- maximize x₀ s.t. x₀ ≤ 2e-8 (thrice, with right-hand sides 2e-8, 1e-8, 0):
all three slack rows qualify for the ratio test with ratios 2e-8, 1e-8, 0. -/
def c3lp : StandardForm :=
  ⟨[1, 0, 0], [[1, 0, 0], [1, 0, 0], [1, 0, 0]], [2 * eps, eps, 0]⟩

/-- The plain slack form of `c3lp` (ascending iteration order). -/
def c3tab : SlackForm :=
  ⟨[0, 1, 2], [3, 4, 5],
    [[0, 0, 0, 0, 0, 0], [0, 0, 0, 0, 0, 0], [0, 0, 0, 0, 0, 0],
     [1, 0, 0, 0, 0, 0], [1, 0, 0, 0, 0, 0], [1, 0, 0, 0, 0, 0]],
    [0, 0, 0, 2 * eps, eps, 0], [1, 0, 0, 0, 0, 0], 0⟩

/-- A 2-variable, 2-constraint tableau with pivot element `a[2][0] = 2`. -/
def c5tab : SlackForm :=
  ⟨[0, 1], [2, 3],
    [[0, 0, 0, 0], [0, 0, 0, 0], [2, 1, 0, 0], [1, 3, 0, 0]],
    [0, 0, 4, 6], [5, 4, 0, 0], 0⟩

/-- A well-formed basic/nonbasic partition for the pivot-partition claim. -/
def c6tab : SlackForm :=
  ⟨[0, 1], [2, 3],
    [[0, 0, 0, 0], [0, 0, 0, 0], [1, 1, 0, 0], [1, 2, 0, 0]],
    [0, 0, 3, 5], [2, 1, 0, 0], 0⟩

/-- A feasible tableau on which Phase-II performs one pivot and stops. -/
def c7tab : SlackForm :=
  ⟨[0, 1], [2, 3],
    [[0, 0, 0, 0], [0, 0, 0, 0], [1, 0, 0, 0], [2, 0, 0, 0]],
    [0, 0, 1, 4], [1, 0, 0, 0], 0⟩

/-- The terminal tableau `phase2` reaches from `c7tab`. -/
def c7end : SlackForm := c7tab.pivot 2 0

/-- The infeasible LP "maximize 0 s.t. 0·x ≤ −1": Phase-I runs and the
auxiliary loop stops immediately after the forced first pivot. -/
def c8lp : StandardForm := ⟨[0], [[0]], [-1]⟩

/-- The auxiliary tableau of `c8lp` after the forced first pivot; the loop
performs no further pivots on it. -/
def c8aux : SlackForm := auxStart c8lp

/-- Dimension carrier for the degenerate-Phase-I panic: 0 structural
variables, 1 constraint, so the auxiliary variable has index 1. -/
def c10lp : StandardForm := ⟨[], [], [0]⟩

/-- An auxiliary-loop result with the auxiliary variable (index 1) basic at
value 0 and an all-zero auxiliary row. -/
def c10aux : SlackForm := ⟨[0], [1], [[0, 0], [0, 0]], [0, 0], [0, 0], 0⟩

/-
Helper lemmas.
-/

/-- Reading a `(List.range n).map f` vector is `f` under the bound. -/
lemma getI_range_map (f : ℕ → ℚ) (n i : ℕ) :
    getI ((List.range n).map f) i = if i < n then f i else 0 := by
  unfold getI
  rw [List.getD_eq_getElem?_getD, List.getElem?_map]
  by_cases h : i < n
  · rw [List.getElem?_range h]
    simp [h]
  · rw [List.getElem?_eq_none (by simpa using Nat.le_of_not_lt h)]
    simp [h]

/-- Reading an entry of a `(List.range n).map`-built matrix. -/
lemma getI2_range_map (g : ℕ → ℕ → ℚ) (n i j : ℕ) :
    getI2 ((List.range n).map fun i => (List.range n).map (g i)) i j =
      if i < n ∧ j < n then g i j else 0 := by
  unfold getI2
  rw [List.getD_eq_getElem?_getD, List.getElem?_map]
  by_cases h : i < n
  · rw [List.getElem?_range h]
    by_cases hj : j < n
    · simp [getI_range_map, h, hj]
    · simp [getI_range_map, h, hj]
  · rw [List.getElem?_eq_none (by simpa using Nat.le_of_not_lt h)]
    simp [getI, h]

/-- The tolerance is positive. -/
lemma eps_pos : 0 < eps := by norm_num [eps]

/-- The index returned by `position` is in range, satisfies the predicate, and
no earlier index does. -/
lemma position_some_spec (p : ℚ → Bool) :
    ∀ (c : List ℚ) (e : ℕ), position p c = some e →
      e < c.length ∧ p (getI c e) = true ∧ ∀ k, k < e → p (getI c k) = false := by
  intro c
  induction c with
  | nil => intro e h; simp [position] at h
  | cons x xs ih =>
    intro e h
    by_cases hx : p x
    · rw [position, if_pos hx] at h
      injection h with h0
      subst h0
      exact ⟨by simp, by simpa [getI], fun k hk => absurd hk (by omega)⟩
    · rw [position, if_neg hx] at h
      obtain ⟨e0, he0, rfl⟩ := Option.map_eq_some'.mp h
      obtain ⟨h1, h2, h3⟩ := ih e0 he0
      refine ⟨by simpa using h1, by simpa [getI, List.getD_cons_succ] using h2, ?_⟩
      intro k hk
      cases k with
      | zero => simpa [getI] using hx
      | succ k => simpa [getI, List.getD_cons_succ] using h3 k (by omega)

/-- When `position` finds nothing, no entry satisfies the predicate (assuming
the out-of-range default 0 does not either). -/
lemma position_none_spec (p : ℚ → Bool) (hp0 : p 0 = false) :
    ∀ c : List ℚ, position p c = none → ∀ k, p (getI c k) = false := by
  intro c
  induction c with
  | nil => intro _ k; simpa [getI] using hp0
  | cons x xs ih =>
    intro h k
    by_cases hx : p x
    · rw [position, if_pos hx] at h
      simp at h
    · rw [position, if_neg hx, Option.map_eq_none'] at h
      cases k with
      | zero => simpa [getI] using hx
      | succ k => simpa [getI, List.getD_cons_succ] using ih h k

/-- A tableau reported optimal by the Phase-II loop has no reduced cost
exceeding `EPS`. -/
lemma phase2_done_fe : ∀ (fuel : ℕ) (s t : SlackForm),
    phase2 fuel s = Run.out (P2Out.done t) → findEntering t.c = none := by
  intro fuel
  induction fuel with
  | zero =>
    intro s t h
    unfold phase2 at h
    split at h
    · next hfe =>
      injection h with h1
      injection h1 with h2
      subst h2
      exact hfe
    · split at h
      · simp at h
      · simp at h
  | succ f ih =>
    intro s t h
    unfold phase2 at h
    split at h
    · next hfe =>
      injection h with h1
      injection h1 with h2
      subst h2
      exact hfe
    · split at h
      · simp at h
      · exact ih _ _ h

/-- Invariant of the minimum-ratio fold started at a candidate row `lv`: the
final incumbent is one of the visited rows (or `lv`), its ratio is recorded in
the second component, never increases, and stays within `EPS` of every visited
row's ratio. -/
lemma lvfold_inv (r : ℕ → ℚ) :
    ∀ (xs : List ℕ) (lv : ℕ),
      ((xs.foldl (lvStep r) (lv, some (r lv))).1 = lv ∨
        (xs.foldl (lvStep r) (lv, some (r lv))).1 ∈ xs) ∧
      (xs.foldl (lvStep r) (lv, some (r lv))).2 =
        some (r (xs.foldl (lvStep r) (lv, some (r lv))).1) ∧
      r (xs.foldl (lvStep r) (lv, some (r lv))).1 ≤ r lv ∧
      ∀ i ∈ xs, r (xs.foldl (lvStep r) (lv, some (r lv))).1 ≤ r i + eps := by
  intro xs
  induction xs with
  | nil => intro lv; simp
  | cons x xs ih =>
    intro lv
    simp only [List.foldl_cons]
    by_cases hx : r x + eps < r lv
    · have hstep : lvStep r (lv, some (r lv)) x = (x, some (r x)) := by
        simp [lvStep, hx]
      rw [hstep]
      obtain ⟨h1, h2, h3, h4⟩ := ih x
      refine ⟨?_, h2, ?_, ?_⟩
      · rcases h1 with h | h
        · right; simp [h]
        · right; simp [h]
      · have := eps_pos
        linarith
      · intro i hi
        rcases List.mem_cons.mp hi with rfl | hi
        · have := eps_pos
          linarith
        · exact h4 i hi
    · have hstep : lvStep r (lv, some (r lv)) x = (lv, some (r lv)) := by
        simp [lvStep, hx]
      rw [hstep]
      obtain ⟨h1, h2, h3, h4⟩ := ih lv
      refine ⟨?_, h2, h3, ?_⟩
      · rcases h1 with h | h
        · left; exact h
        · right; simp [h]
      · intro i hi
        rcases List.mem_cons.mp hi with rfl | hi
        · have hd : r lv ≤ r i + eps := le_of_not_lt hx
          linarith
        · exact h4 i hi

/-- The leaving row chosen by the ratio-test loop is one of the qualifying
rows, and its ratio is within `EPS` of every qualifying row's ratio. -/
lemma chooseLeaving_spec (s : SlackForm) (e : ℕ) (hne : qualRows s e ≠ []) :
    chooseLeaving s e ∈ qualRows s e ∧
    ∀ i ∈ qualRows s e, ratio s e (chooseLeaving s e) ≤ ratio s e i + eps := by
  obtain ⟨x, xs, hQ⟩ := List.exists_cons_of_ne_nil hne
  unfold chooseLeaving
  rw [hQ]
  simp only [List.foldl_cons]
  have hstep : lvStep (ratio s e) (0, none) x = (x, some (ratio s e x)) := rfl
  rw [hstep]
  obtain ⟨h1, _h2, h3, h4⟩ := lvfold_inv (ratio s e) xs x
  constructor
  · rcases h1 with h | h
    · simp [h]
    · simp [h]
  · intro i hi
    rcases List.mem_cons.mp hi with rfl | hi
    · have := eps_pos
      linarith
    · exact h4 i hi

/-- Removing one occurrence of a present element from a duplicate-free list by
filtering shortens it by exactly one. -/
lemma length_filter_ne_of_nodup :
    ∀ (L : List ℕ) (x : ℕ), L.Nodup → x ∈ L →
      (L.filter (fun i => i ≠ x)).length + 1 = L.length := by
  intro L
  induction L with
  | nil => intro x _ hx; simp at hx
  | cons y ys ih =>
    intro x hn hx
    by_cases hyx : y = x
    · subst hyx
      have hys : y ∉ ys := (List.nodup_cons.mp hn).1
      have hfil : ys.filter (fun i => i ≠ y) = ys :=
        List.filter_eq_self.mpr fun a ha => by
          simp only [decide_eq_true_eq]
          exact fun h => hys (h ▸ ha)
      rw [List.filter_cons, if_neg (by simp), hfil]
      simp
    · have hx2 : x ∈ ys := by
        rcases List.mem_cons.mp hx with h | h
        · exact absurd h.symm hyx
        · exact h
      have := ih x (List.nodup_cons.mp hn).2 hx2
      simp only [List.filter_cons]
      rw [if_pos (by simpa using hyx)]
      simp only [List.length_cons]
      omega

/-- Reading the pivoted right-hand side. -/
lemma pivot_b_get (s : SlackForm) (l e i : ℕ) :
    getI (s.pivot l e).b i = if i < nvOf s then pivotBval s l e i else 0 :=
  getI_range_map _ _ _

/-- Reading the pivoted reduced-cost row. -/
lemma pivot_c_get (s : SlackForm) (l e j : ℕ) :
    getI (s.pivot l e).c j = if j < nvOf s then pivotCval s l e j else 0 :=
  getI_range_map _ _ _

/-- Reading the pivoted matrix. -/
lemma pivot_a_get (s : SlackForm) (l e i j : ℕ) :
    getI2 (s.pivot l e).a i j =
      if i < nvOf s ∧ j < nvOf s then pivotEntry s l e i j else 0 :=
  getI2_range_map _ _ _ _

/-
Claim theorems.
-/

/-- Claim C1 (code bug): for a StandardForm whose right-hand side is entirely
≥ −EPS, Phase-I is claimed to return the plain slack form with
`a[i][j] = A[i-n][j]` and `b[i] = b_{i-n}` for each basic row `i`; the source
instead computes the row offset as `i - num_basic = i - m`, so already on the
accepted input c = [1,1], A = [[1,1]], b = [1] (n = 2, m = 1, b ≥ 0) the
conversion reads the nonexistent row `A[1]` and panics instead of building the
claimed tableau. -/
theorem c1_slack_form_crash :
    (∀ x ∈ c1lp.b, -eps ≤ x) ∧
    StandardForm.newSF [1, 1] [[1, 1]] [1] = some c1lp ∧
    c1lp.into_slack_from = none ∧
    initSimplex 0 c1lp = Run.crash ∧
    simplex 0 c1lp = Run.crash := by decide

/-- Claim C2 (code bug): `simplex` is claimed to be deterministic across runs,
but the ratio-test loop folds over the `HashSet` of basic indices, whose
iteration order is unspecified.  On the LP c = [1,0], A = [[1,0],[1,0]],
b = [1e-8, 0], whose two candidate leaving rows tie within `EPS`, running
Phase-II on the same tableau contents with iteration order (2,3) versus (3,2)
returns different Feasible payloads, so two runs of the program need not
agree. -/
theorem c2_hash_order_dependence :
    c2lp.into_slack_from = some c2asc ∧
    c2desc.basic.Perm c2asc.basic ∧
    c2desc.nonbasic = c2asc.nonbasic ∧ c2desc.a = c2asc.a ∧
    c2desc.b = c2asc.b ∧ c2desc.c = c2asc.c ∧ c2desc.v = c2asc.v ∧
    simplexFromSlack 2 c2asc = Run.out (LPResult.Feasible [eps, 0] eps) ∧
    simplexFromSlack 2 c2desc = Run.out (LPResult.Feasible [0, 0] 0) ∧
    simplexFromSlack 2 c2asc ≠ simplexFromSlack 2 c2desc := by decide

/-- Claim C3 (counterexample): the leaving variable is claimed to minimize
`b[i]/a[i][entering]` with `EPS`-ties broken towards the smallest row index.
On the plain slack form of c3lp, in the first Phase-II iteration (entering 0)
rows 4 and 5 both qualify and their ratios differ by exactly `EPS` (a tie), yet
the scan keeps row 5, not the smaller tied index 4: the keep-first rule only
replaces the incumbent on an improvement of more than `EPS`, so row 4 (ratio
1e-8) displaced row 3 (ratio 2e-8) never, and row 5 (ratio 0) won. -/
theorem c3_counterexample :
    c3lp.into_slack_from = some c3tab ∧
    findEntering c3tab.c = some 0 ∧
    chooseLeaving c3tab 0 = 5 ∧
    4 ∈ c3tab.basic ∧ eps < getI2 c3tab.a 4 0 ∧
    |ratio c3tab 0 4 - ratio c3tab 0 5| ≤ eps ∧
    (4 : ℕ) < 5 := by decide

/-- Claim C3 (amended): the leaving variable is a basic row with
`a[i][entering] > EPS`, chosen by one pass over the basic set in its iteration
order that replaces the incumbent only when the ratio improves by more than
`EPS`; consequently its ratio is within `EPS` of every qualifying row's ratio
(hence of the minimum), but neither exact minimization nor smallest-index
tie-breaking is guaranteed. -/
theorem c3_leaving_selection (s : SlackForm) (e : ℕ) (hne : qualRows s e ≠ []) :
    chooseLeaving s e ∈ s.basic ∧ eps < getI2 s.a (chooseLeaving s e) e ∧
    ∀ i ∈ s.basic, eps < getI2 s.a i e →
      ratio s e (chooseLeaving s e) ≤ ratio s e i + eps := by
  obtain ⟨hmem, hmin⟩ := chooseLeaving_spec s e hne
  have hm := List.mem_filter.mp hmem
  refine ⟨hm.1, by simpa using hm.2, ?_⟩
  intro i hi hqi
  exact hmin i (List.mem_filter.mpr ⟨hi, by simpa using hqi⟩)

/-- Witness for C3 (amended) on the concrete tableau `c3tab`. -/
theorem c3_leaving_selection_witness :
    chooseLeaving c3tab 0 ∈ c3tab.basic ∧
    eps < getI2 c3tab.a (chooseLeaving c3tab 0) 0 ∧
    ∀ i ∈ c3tab.basic, eps < getI2 c3tab.a i 0 →
      ratio c3tab 0 (chooseLeaving c3tab 0) ≤ ratio c3tab 0 i + eps :=
  c3_leaving_selection c3tab 0 (by decide)

/-- Claim C5: with `leaving` basic, `entering` nonbasic and pivot element
`a[leaving][entering] ≠ 0`, the pivot produces (writing `t` for the result and
reading the pivot row of the new matrix, as the source does): the new
`b[entering] = b[leaving]/a[leaving][entering]`; every old basic row's value
decreased by its coefficient on `entering` times that value; the pivot row
rescaled by `1/a[leaving][entering]` with that coefficient on `leaving`; every
other basic row reduced by the scaled pivot row (and coefficient
`−a[i][entering]·t.a[entering][leaving]` on `leaving`); the new
`c[leaving] = −c[entering]·t.a[entering][leaving]`; every old nonbasic reduced
cost decreased by `c[entering]·t.a[entering][j]`; and `v` increased by
`c[entering]·t.b[entering]`.  `pivot` is a pure function of the old tableau, so
the input is unchanged. -/
theorem c5_pivot_formulas (s : SlackForm) (l e : ℕ)
    (hl : l ∈ s.basic) (he : e ∈ s.nonbasic)
    (hln : l ∉ s.nonbasic) (heb : e ∉ s.basic)
    (hlnv : l < nvOf s) (henv : e < nvOf s)
    (hpiv : getI2 s.a l e ≠ 0) :
    getI (s.pivot l e).b e = getI s.b l / getI2 s.a l e ∧
    (∀ i ∈ s.basic, i < nvOf s →
      getI (s.pivot l e).b i =
        getI s.b i - getI2 s.a i e * (getI s.b l / getI2 s.a l e)) ∧
    getI2 (s.pivot l e).a e l = 1 / getI2 s.a l e ∧
    (∀ j ∈ s.nonbasic, j < nvOf s →
      getI2 (s.pivot l e).a e j = getI2 s.a l j / getI2 s.a l e) ∧
    (∀ i ∈ s.basic, i < nvOf s →
      (∀ j ∈ s.nonbasic, j < nvOf s →
        getI2 (s.pivot l e).a i j =
          getI2 s.a i j - getI2 s.a i e * getI2 (s.pivot l e).a e j) ∧
      getI2 (s.pivot l e).a i l = -(getI2 s.a i e) * getI2 (s.pivot l e).a e l) ∧
    getI (s.pivot l e).c l = -(getI s.c e) * getI2 (s.pivot l e).a e l ∧
    (∀ j ∈ s.nonbasic, j < nvOf s →
      getI (s.pivot l e).c j = getI s.c j - getI s.c e * getI2 (s.pivot l e).a e j) ∧
    (s.pivot l e).v = s.v + getI s.c e * getI (s.pivot l e).b e := by
  have hel : e ≠ l := fun h => hln (h ▸ he)
  refine ⟨?_, ?_, ?_, ?_, ?_, ?_, ?_, rfl⟩
  · simp [pivot_b_get, henv, pivotBval, heb]
  · intro i hi hinv
    simp [pivot_b_get, hinv, pivotBval, hi]
  · simp [pivot_a_get, henv, hlnv, pivotEntry, heb, prowF, hln]
  · intro j hj hjnv
    simp [pivot_a_get, henv, hjnv, pivotEntry, heb, prowF, hj]
  · intro i hi hinv
    have hie : i ≠ e := fun h => heb (h ▸ hi)
    constructor
    · intro j hj hjnv
      have hjl : j ≠ l := fun h => hln (h ▸ hj)
      simp [pivot_a_get, hinv, hjnv, henv, pivotEntry, hi, hie, hj, hjl, heb]
    · simp [pivot_a_get, hinv, hlnv, henv, pivotEntry, hi, hie, heb, prowF, hln]
  · simp [pivot_c_get, pivot_a_get, hlnv, henv, pivotCval, pivotEntry, hln, heb, prowF]
  · intro j hj hjnv
    simp [pivot_c_get, pivot_a_get, hjnv, henv, pivotCval, pivotEntry, hj, heb]

/-- Witness for C5: the pivot formulas at the concrete tableau `c5tab` with
leaving row 2 and entering column 0. -/
theorem c5_pivot_formulas_witness :
    getI (c5tab.pivot 2 0).b 0 = getI c5tab.b 2 / getI2 c5tab.a 2 0 ∧
    (∀ i ∈ c5tab.basic, i < nvOf c5tab →
      getI (c5tab.pivot 2 0).b i =
        getI c5tab.b i - getI2 c5tab.a i 0 * (getI c5tab.b 2 / getI2 c5tab.a 2 0)) ∧
    getI2 (c5tab.pivot 2 0).a 0 2 = 1 / getI2 c5tab.a 2 0 ∧
    (∀ j ∈ c5tab.nonbasic, j < nvOf c5tab →
      getI2 (c5tab.pivot 2 0).a 0 j = getI2 c5tab.a 2 j / getI2 c5tab.a 2 0) ∧
    (∀ i ∈ c5tab.basic, i < nvOf c5tab →
      (∀ j ∈ c5tab.nonbasic, j < nvOf c5tab →
        getI2 (c5tab.pivot 2 0).a i j =
          getI2 c5tab.a i j - getI2 c5tab.a i 0 * getI2 (c5tab.pivot 2 0).a 0 j) ∧
      getI2 (c5tab.pivot 2 0).a i 2 =
        -(getI2 c5tab.a i 0) * getI2 (c5tab.pivot 2 0).a 0 2) ∧
    getI (c5tab.pivot 2 0).c 2 = -(getI c5tab.c 0) * getI2 (c5tab.pivot 2 0).a 0 2 ∧
    (∀ j ∈ c5tab.nonbasic, j < nvOf c5tab →
      getI (c5tab.pivot 2 0).c j =
        getI c5tab.c j - getI c5tab.c 0 * getI2 (c5tab.pivot 2 0).a 0 j) ∧
    (c5tab.pivot 2 0).v = c5tab.v + getI c5tab.c 0 * getI (c5tab.pivot 2 0).b 0 :=
  c5_pivot_formulas c5tab 2 0 (by decide) (by decide) (by decide) (by decide)
    (by decide) (by decide) (by decide)

/-- Claim C6: when the basic and nonbasic index sets are disjoint and
`leaving ∈ basic`, `entering ∈ nonbasic`, the pivoted tableau's basic and
nonbasic sets are again disjoint, cover exactly the same index universe, stay
duplicate-free, and keep their sizes (one index leaves the basis, one
enters). -/
theorem c6_pivot_partition (s : SlackForm) (l e : ℕ)
    (hl : l ∈ s.basic) (he : e ∈ s.nonbasic)
    (hbn : s.basic.Nodup) (hnn : s.nonbasic.Nodup)
    (hdisj : ∀ x, x ∈ s.basic → x ∈ s.nonbasic → False) :
    (∀ x, (x ∈ (s.pivot l e).basic ∨ x ∈ (s.pivot l e).nonbasic) ↔
      (x ∈ s.basic ∨ x ∈ s.nonbasic)) ∧
    (∀ x, x ∈ (s.pivot l e).basic → x ∈ (s.pivot l e).nonbasic → False) ∧
    (s.pivot l e).basic.Nodup ∧ (s.pivot l e).nonbasic.Nodup ∧
    (s.pivot l e).basic.length = s.basic.length ∧
    (s.pivot l e).nonbasic.length = s.nonbasic.length := by
  have hle : l ≠ e := fun h => hdisj l hl (h ▸ he)
  have heb : e ∉ s.basic := fun h => hdisj e h he
  have hln : l ∉ s.nonbasic := fun h => hdisj l hl h
  have hb : ∀ x, x ∈ (s.pivot l e).basic ↔ (x ∈ s.basic ∧ x ≠ l) ∨ x = e := by
    intro x
    simp [SlackForm.pivot]
  have hn : ∀ x, x ∈ (s.pivot l e).nonbasic ↔ (x ∈ s.nonbasic ∧ x ≠ e) ∨ x = l := by
    intro x
    simp [SlackForm.pivot]
  refine ⟨?_, ?_, ?_, ?_, ?_, ?_⟩
  · intro x
    rw [hb, hn]
    constructor
    · rintro ((⟨hx, _⟩ | rfl) | (⟨hx, _⟩ | rfl))
      · exact Or.inl hx
      · exact Or.inr he
      · exact Or.inr hx
      · exact Or.inl hl
    · intro hx
      by_cases hxl : x = l
      · exact Or.inr (Or.inr hxl)
      · by_cases hxe : x = e
        · exact Or.inl (Or.inr hxe)
        · rcases hx with hx | hx
          · exact Or.inl (Or.inl ⟨hx, hxl⟩)
          · exact Or.inr (Or.inl ⟨hx, hxe⟩)
  · intro x hx1 hx2
    rw [hb] at hx1
    rw [hn] at hx2
    rcases hx1 with ⟨hx1, hxl⟩ | rfl
    · rcases hx2 with ⟨hx2, _⟩ | rfl
      · exact hdisj x hx1 hx2
      · exact hxl rfl
    · rcases hx2 with ⟨hx2, hxe⟩ | rfl
      · exact hxe rfl
      · exact hle rfl
  · show (s.basic.filter (fun i => i ≠ l) ++ [e]).Nodup
    rw [List.nodup_append]
    refine ⟨hbn.filter _, List.nodup_singleton e, ?_⟩
    intro x hx hx2
    rw [List.mem_singleton] at hx2
    subst hx2
    exact heb (List.mem_of_mem_filter hx)
  · show (s.nonbasic.filter (fun j => j ≠ e) ++ [l]).Nodup
    rw [List.nodup_append]
    refine ⟨hnn.filter _, List.nodup_singleton l, ?_⟩
    intro x hx hx2
    rw [List.mem_singleton] at hx2
    subst hx2
    exact hln (List.mem_of_mem_filter hx)
  · show (s.basic.filter (fun i => i ≠ l) ++ [e]).length = s.basic.length
    rw [List.length_append]
    simpa using length_filter_ne_of_nodup s.basic l hbn hl
  · show (s.nonbasic.filter (fun j => j ≠ e) ++ [l]).length = s.nonbasic.length
    rw [List.length_append]
    simpa using length_filter_ne_of_nodup s.nonbasic e hnn he

/-- Witness for C6: the partition invariants after pivoting `c6tab` at
leaving row 2, entering column 0. -/
theorem c6_pivot_partition_witness :
    (∀ x, (x ∈ (c6tab.pivot 2 0).basic ∨ x ∈ (c6tab.pivot 2 0).nonbasic) ↔
      (x ∈ c6tab.basic ∨ x ∈ c6tab.nonbasic)) ∧
    (∀ x, x ∈ (c6tab.pivot 2 0).basic → x ∈ (c6tab.pivot 2 0).nonbasic → False) ∧
    (c6tab.pivot 2 0).basic.Nodup ∧ (c6tab.pivot 2 0).nonbasic.Nodup ∧
    (c6tab.pivot 2 0).basic.length = c6tab.basic.length ∧
    (c6tab.pivot 2 0).nonbasic.length = c6tab.nonbasic.length :=
  c6_pivot_partition c6tab 2 0 (by decide) (by decide) (by decide) (by decide)
    (by decide)

/-- Claim C7: in every Phase-II iteration the entering scan returns the least
index whose reduced cost exceeds `EPS` (which is nonbasic whenever, as the
algorithm maintains, reduced costs outside the nonbasic set are zero), and a
tableau the loop declares optimal — the source of every Feasible result — has
every reduced cost, in particular every nonbasic one, at most `EPS`. -/
theorem c7_entering_and_certificate (s : SlackForm) (fuel : ℕ) :
    (∀ e, findEntering s.c = some e →
      eps < getI s.c e ∧ (∀ k, k < e → getI s.c k ≤ eps) ∧
      ((∀ i, i ∉ s.nonbasic → getI s.c i = 0) → e ∈ s.nonbasic)) ∧
    (∀ t, phase2 fuel s = Run.out (P2Out.done t) → ∀ j, getI t.c j ≤ eps) := by
  constructor
  · intro e he
    obtain ⟨_h1, h2, h3⟩ := position_some_spec _ s.c e he
    have hce : eps < getI s.c e := of_decide_eq_true h2
    refine ⟨hce, ?_, ?_⟩
    · intro k hk
      exact not_lt.mp (of_decide_eq_false (h3 k hk))
    · intro hz
      by_contra hne
      rw [hz e hne] at hce
      linarith [eps_pos]
  · intro t ht j
    have hfe := phase2_done_fe fuel s t ht
    have hz := position_none_spec (fun x => decide (eps < x))
      (decide_eq_false (not_lt.mpr eps_pos.le)) t.c hfe j
    exact not_lt.mp (of_decide_eq_false hz)

/-- Witness for C7 on the concrete feasible tableau `c7tab`, whose Phase-II
run performs one pivot and stops at `c7end`. -/
theorem c7_entering_and_certificate_witness :
    (eps < getI c7tab.c 0 ∧ (∀ k, k < 0 → getI c7tab.c k ≤ eps) ∧
      ((∀ i, i ∉ c7tab.nonbasic → getI c7tab.c i = 0) → 0 ∈ c7tab.nonbasic)) ∧
    (∀ j, getI c7end.c j ≤ eps) :=
  ⟨(c7_entering_and_certificate c7tab 2).1 0 (by decide),
   (c7_entering_and_certificate c7tab 2).2 c7end (by decide)⟩

/-- In the feasible branch of the auxiliary test, `phase1Post` either panics
(the degenerate `unwrap`) or hands Phase-II a rebuilt tableau. -/
lemma phase1Post_of_le (std : StandardForm) (sAux : SlackForm)
    (h : |getI sAux.get_basic_solution (std.c.length + std.b.length)| ≤ eps) :
    phase1Post std sAux = Run.crash ∨
    ∃ sb, phase1Post std sAux = Run.out (some (phase1Rebuild std sb)) := by
  unfold phase1Post
  rw [if_pos h]
  rcases hopt : (if std.c.length + std.b.length ∈ sAux.basic then
      (sAux.nonbasic.find? fun i =>
        decide (eps < |getI2 sAux.a (std.c.length + std.b.length) i|)).map
        (sAux.pivot (std.c.length + std.b.length) ·)
    else some sAux) with _ | sb
  · exact Or.inl rfl
  · exact Or.inr ⟨sb, rfl⟩

/-- In the infeasible branch of the auxiliary test, `phase1Post` reports
infeasibility. -/
lemma phase1Post_of_gt (std : StandardForm) (sAux : SlackForm)
    (h : ¬ |getI sAux.get_basic_solution (std.c.length + std.b.length)| ≤ eps) :
    phase1Post std sAux = Run.out none := by
  unfold phase1Post
  rw [if_neg h]

/-- Phase-II followed by result extraction never reports infeasibility. -/
lemma simplexFromSlack_ne_infeasible (fuel : ℕ) (sf : SlackForm) :
    simplexFromSlack fuel sf ≠ Run.out LPResult.Infeasible := by
  unfold simplexFromSlack
  split <;> simp [reportResult]

/-- Claim C8: once Phase-I's auxiliary loop has finished in state `sAux`,
`simplex` returns Infeasible exactly when the auxiliary variable's value in the
final auxiliary basic solution exceeds `EPS` in absolute value; and that value
is the auxiliary variable's `b` entry if it is still basic and 0 otherwise.
When it is within `EPS`, Phase-I proceeds (to a rebuilt tableau or the
degenerate-pivot panic) and Infeasible is never returned. -/
theorem c8_infeasibility_test (std : StandardForm) (fuel : ℕ) (sAux : SlackForm)
    (hb : std.b ≠ [])
    (hneg : (bminScan std.b).2 < -eps)
    (hloop : auxLoop fuel (auxStart std) = Run.out sAux)
    (hnva : std.c.length + std.b.length < sAux.a.length) :
    (simplex fuel std = Run.out LPResult.Infeasible ↔
      eps < |getI sAux.get_basic_solution (std.c.length + std.b.length)|) ∧
    getI sAux.get_basic_solution (std.c.length + std.b.length) =
      (if std.c.length + std.b.length ∈ sAux.basic
        then getI sAux.b (std.c.length + std.b.length) else 0) := by
  have hinit : initSimplex fuel std = phase1Post std sAux := by
    unfold initSimplex
    rw [if_neg hb, if_neg (not_le.mpr hneg), hloop]
  constructor
  · by_cases hcond :
      |getI sAux.get_basic_solution (std.c.length + std.b.length)| ≤ eps
    · refine iff_of_false ?_ (not_lt.mpr hcond)
      intro hS
      unfold simplex at hS
      rcases phase1Post_of_le std sAux hcond with hpost | ⟨sb, hpost⟩
      · rw [hinit, hpost] at hS
        simp at hS
      · rw [hinit, hpost] at hS
        exact simplexFromSlack_ne_infeasible fuel _ hS
    · refine iff_of_true ?_ (not_le.mp hcond)
      unfold simplex
      rw [hinit, phase1Post_of_gt std sAux hcond]
  · simp [SlackForm.get_basic_solution, getI_range_map, hnva]

/-- Witness for C8 on the infeasible LP `c8lp`, whose auxiliary loop stops
immediately after the forced first pivot. -/
theorem c8_infeasibility_test_witness :
    (simplex 0 c8lp = Run.out LPResult.Infeasible ↔
      eps < |getI c8aux.get_basic_solution (c8lp.c.length + c8lp.b.length)|) ∧
    getI c8aux.get_basic_solution (c8lp.c.length + c8lp.b.length) =
      (if c8lp.c.length + c8lp.b.length ∈ c8aux.basic
        then getI c8aux.b (c8lp.c.length + c8lp.b.length) else 0) :=
  c8_infeasibility_test c8lp 0 c8aux (by decide) (by decide) (by decide) (by decide)

/-- Claim C10: in the degenerate Phase-I case — auxiliary variable still basic
with value within `EPS` of 0 — if every nonbasic coefficient of the auxiliary
variable's row is within `EPS` of 0, the `find(...).unwrap()` at lib.rs 254
panics instead of producing a tableau or reporting Infeasible. -/
theorem c10_degenerate_unwrap_crash (std : StandardForm) (sAux : SlackForm)
    (hnva : std.c.length + std.b.length < sAux.a.length)
    (hbasic : std.c.length + std.b.length ∈ sAux.basic)
    (hval : |getI sAux.b (std.c.length + std.b.length)| ≤ eps)
    (hrow : ∀ i ∈ sAux.nonbasic,
      |getI2 sAux.a (std.c.length + std.b.length) i| ≤ eps) :
    phase1Post std sAux = Run.crash := by
  have hsol : getI sAux.get_basic_solution (std.c.length + std.b.length) =
      getI sAux.b (std.c.length + std.b.length) := by
    simp [SlackForm.get_basic_solution, getI_range_map, hnva, hbasic]
  have hfind : (sAux.nonbasic.find? fun i =>
      decide (eps < |getI2 sAux.a (std.c.length + std.b.length) i|)) = none := by
    rw [List.find?_eq_none]
    intro x hx
    simp only [decide_eq_true_eq, not_lt]
    exact hrow x hx
  unfold phase1Post
  rw [if_pos (by rw [hsol]; exact hval), if_pos hbasic, hfind]
  rfl

/-- Witness for C10: a degenerate auxiliary state with the auxiliary variable
(index 1) basic at value 0 and an all-zero auxiliary row makes `phase1Post`
panic. -/
theorem c10_degenerate_unwrap_crash_witness :
    phase1Post c10lp c10aux = Run.crash :=
  c10_degenerate_unwrap_crash c10lp c10aux (by decide) (by decide) (by decide)
    (by decide)

/-- Claim C9: the constructor accepts an empty constraint system (for any `c`),
and `simplex` on it panics inside `initialize_simplex`, which reads `b[0]`
before ever checking the constraint count, instead of returning an LPResult. -/
theorem c9_zero_constraints_crash (c : List ℚ) (fuel : ℕ) :
    StandardForm.newSF c [] [] = some ⟨c, [], []⟩ ∧
    simplex fuel ⟨c, [], []⟩ = Run.crash := by
  constructor
  · simp [StandardForm.newSF]
  · have hinit : initSimplex fuel ⟨c, [], []⟩ = Run.crash := by
      unfold initSimplex
      simp
    simp [simplex, hinit]

end LPS
